import Mathlib

/-!
A shallow embedding of `reth db checksum` — the range-bounded streaming
checksum reducer in `src/bin/reth/src/commands/db/checksum.rs`
(`ChecksumViewer::get_checksum`) — together with proofs of the spec's
claims about it.

Raw keys and raw values are opaque byte sequences; we model them as
`List Nat`.  The store's key order (provided by the external cursor) is
the lexicographic order on byte strings, which is Mathlib's linear order
on `List Nat`.
-/

/-- Raw key / raw value bytes: opaque byte sequences as physically stored. -/
abbrev RawBytes : Type := List Nat

/-- Value of `usize::MAX` on a 64-bit target; `get_checksum` substitutes it
for an absent limit (`self.limit.unwrap_or(usize::MAX)`). -/
def USIZE_MAX : Nat := 2 ^ 64 - 1

/-- Modulus for 64-bit arithmetic. -/
def U64_SIZE : Nat := 2 ^ 64

/-- Modelled from the spec: the ahash crate's hasher implementation is not
part of this repository's sources, so the checksum accumulator is modelled
from the spec as "a single running hash state, initialized with a fixed,
reproducible seed ... mutated by feeding raw bytes in strict visitation
order".  One mixing step folds one 64-bit word into the running state. -/
def MULTIPLE : Nat := 6364136223846793005

/-- Modelled from the spec: a single order-sensitive mixing step of the
accumulator; all arithmetic is modulo 2^64. -/
def mix (acc x : Nat) : Nat := ((acc + x) * MULTIPLE) % U64_SIZE

/-- Modelled from the spec: the checksum accumulator, "a single running
hash state" holding a 64-bit word. -/
structure AHasher where
  acc : Nat
deriving DecidableEq, Repr

/-- Modelled from the spec: `RandomState::with_seeds(1, 2, 3, 4).build_hasher()`
seeds the accumulator with four fixed 64-bit constants. -/
def buildHasherWithSeeds (k0 k1 k2 k3 : Nat) : AHasher :=
  ⟨mix (mix (mix (mix 0 k0) k1) k2) k3⟩

/-- The hasher `get_checksum` starts from: seeds `(1, 2, 3, 4)` as in
`RandomState::with_seeds(1, 2, 3, 4)`. -/
def initialHasher : AHasher := buildHasherWithSeeds 1 2 3 4

/-- Modelled from the spec: `Hasher::write` feeds one raw byte chunk to the
accumulator (the chunk's length followed by its bytes, so that distinct
chunkings of the same byte stream are distinguished, as in ahash). -/
def AHasher.write (h : AHasher) (bs : RawBytes) : AHasher :=
  ⟨(List.foldl mix (mix h.acc bs.length) bs : Nat)⟩

/-- Modelled from the spec: `Hasher::finish` finalizes the accumulator into
the 64-bit checksum value. -/
def AHasher.finish (h : AHasher) : Nat := h.acc

/-- Finalize value of the seeded-but-never-fed accumulator: the checksum an
empty walk reports. -/
def emptyChecksum : Nat := initialHasher.finish

/-- Errors surfaced by `get_checksum`: a cursor entry error (I/O or decode
failure while iterating, `entry?`) or a reverse-decode failure of a tracked
key (`s.key()?` / `e.key()?`).  The source collapses both into
`eyre::Report`; we keep them apart only to name the point of failure. -/
inductive DbError where
  | cursor (code : Nat)
  | keyDecode
deriving DecidableEq, Repr

/-- One item yielded by the cursor walker: either a raw `(key, value)` record
or a per-entry failure. -/
abbrev Entry : Type := Except DbError (RawBytes × RawBytes)

/-- Iteration range over the table, as produced by the `match` on
`(self.start_key.as_deref(), self.end_key.as_deref())` in `get_checksum`:
`walk_range(start..=end)`, `walk_range(..=end)`, `walk_range(start..)` or
`walk_range(..)`. -/
inductive KeyRange where
  | bounded (startKey endKey : RawBytes)
  | toEnd (endKey : RawBytes)
  | fromStart (startKey : RawBytes)
  | unbounded
deriving Repr

/-- Range resolution from `get_checksum`: the four-way `match` on the
optional start and end keys (already decoded to raw bytes by the external
table codec), in source order. -/
def resolveRange (startKey endKey : Option RawBytes) : KeyRange :=
  match startKey, endKey with
  | some s, some e => KeyRange.bounded s e
  | none, some e => KeyRange.toEnd e
  | some s, none => KeyRange.fromStart s
  | none, none => KeyRange.unbounded

/-- Modelled from the spec: membership of a key in an iteration range; the
cursor's `walk_range` is external (reth_db), and the spec fixes its
semantics as "inclusive on both ends when both are present". -/
def KeyRange.containsKey : KeyRange → RawBytes → Bool
  | KeyRange.bounded s e, k => decide ((s : List Nat) ≤ k) && decide ((k : List Nat) ≤ e)
  | KeyRange.toEnd e, k => decide ((k : List Nat) ≤ e)
  | KeyRange.fromStart s, k => decide ((s : List Nat) ≤ k)
  | KeyRange.unbounded, _ => true

/-- Modelled from the spec: the entries the external cursor yields for a
resolved range over a key-ordered store snapshot — exactly the store's
records whose key lies in the range, in store order, each yielded as a
successful entry. -/
def rangeEntries (store : List (RawBytes × RawBytes)) (r : KeyRange) : List Entry :=
  (store.filter (fun kv => r.containsKey kv.1)).map Except.ok

/-- Mutable state of the `for (index, entry) in walker.enumerate()` loop in
`get_checksum`: the hasher, `total`, `enumerate_start_key` and
`enumerate_end_key`. -/
structure LoopState where
  hasher : AHasher
  total : Nat
  enumerateStartKey : Option RawBytes
  enumerateEndKey : Option RawBytes
deriving DecidableEq, Repr

/-- Loop state on entry to the walk: seeded hasher, `total = 0`, no tracked
keys. -/
def initLoopState : LoopState :=
  ⟨initialHasher, 0, none, none⟩

/-- The body of the walk loop of `get_checksum`, translated step for step:
`let (k, v) = entry?`, `hasher.write(k.raw_key()); hasher.write(v.raw_value())`,
first-key capture, end-key overwrite, `total = index + 1`, and
`if total >= limit { break }`.  The progress log every 100 000 entries is
advisory only and carries no state. -/
def walkFold (limit : Nat) : List Entry → Nat → LoopState → Except DbError LoopState
  | [], _, st => Except.ok st
  | entry :: rest, index, st =>
    match entry with
    | Except.error err => Except.error err
    | Except.ok (k, v) =>
      let hasher := (st.hasher.write k).write v
      let enumerateStartKey :=
        if st.enumerateStartKey.isNone then some k else st.enumerateStartKey
      let enumerateEndKey := some k
      let total := index + 1
      let st := LoopState.mk hasher total enumerateStartKey enumerateEndKey
      if total ≥ limit then Except.ok st
      else walkFold limit rest (index + 1) st

/-- Outcome of the walk loop for a given entry stream and optional limit:
runs `walkFold` from the seeded initial state with
`limit = self.limit.unwrap_or(usize::MAX)`. -/
def walkOutcome (entries : List Entry) (limitOpt : Option Nat) : Except DbError LoopState :=
  walkFold (limitOpt.getD USIZE_MAX) entries 0 initLoopState

/-- The tail of `get_checksum` after the loop, given the reverse decoder
`dec` of the external table codec (`RawKey::key`): when both tracked keys
are present the source logs `s.key()?` and `e.key()?`, so a reverse-decode
failure there propagates as an error; otherwise `Ok((hasher.finish(), elapsed))`.
Wall-clock `elapsed` is not representable in the embedding and is modelled
as `Unit`. -/
def getChecksumLoop (dec : RawBytes → Bool) (entries : List Entry)
    (limitOpt : Option Nat) : Except DbError (Nat × Unit) :=
  match walkOutcome entries limitOpt with
  | Except.error err => Except.error err
  | Except.ok st =>
    match st.enumerateStartKey, st.enumerateEndKey with
    | some s, some e =>
      if dec s then
        if dec e then Except.ok (st.hasher.finish, ())
        else Except.error DbError.keyDecode
      else Except.error DbError.keyDecode
    | _, _ => Except.ok (st.hasher.finish, ())

/-- The checksum command's per-table state: optional raw start/end boundary
keys (boundary decoding from text by `table_key` belongs to the external
codec) and the optional record limit, as in `ChecksumViewer`. -/
structure ChecksumViewer where
  startKey : Option RawBytes
  endKey : Option RawBytes
  limit : Option Nat

/-- `ChecksumViewer::get_checksum` over a store snapshot: resolve the range
from the optional boundary keys, walk the range's entries, and finish the
checksum. -/
def ChecksumViewer.getChecksum (self : ChecksumViewer) (dec : RawBytes → Bool)
    (store : List (RawBytes × RawBytes)) : Except DbError (Nat × Unit) :=
  getChecksumLoop dec (rangeEntries store (resolveRange self.startKey self.endKey)) self.limit

/-- The spec's description of the checksum as a byte fold: feed the seeded
accumulator each record's raw key bytes, then its raw value bytes, in
visitation order.  Used to compare the walk's checksum against the spec's
key-then-value fold. -/
def keyThenValueFold (records : List (RawBytes × RawBytes)) : AHasher :=
  records.foldl (fun h kv => (h.write kv.1).write kv.2) initialHasher

/-! ## Characterization of the walk loop -/

/-- Effect of one loop iteration on the loop state, at enumeration index
`idx`: the source's writes, first-key capture, end-key overwrite and
`total = index + 1`, without the break test. -/
def stepState (idx : Nat) (st : LoopState) (kv : RawBytes × RawBytes) : LoopState :=
  ⟨(st.hasher.write kv.1).write kv.2, idx + 1,
    if st.enumerateStartKey.isNone then some kv.1 else st.enumerateStartKey,
    some kv.1⟩

/-- Pure run of the loop body over a list of records starting at enumeration
index `idx`, ignoring the limit (used to characterize `walkFold` when no
break fires before the final record). -/
def runAll : List (RawBytes × RawBytes) → Nat → LoopState → LoopState
  | [], _, st => st
  | kv :: rest, idx, st => runAll rest (idx + 1) (stepState idx st kv)

theorem walkFold_all_ok (records : List (RawBytes × RawBytes)) :
    ∀ (idx : Nat) (st : LoopState) (limit : Nat), idx + records.length ≤ limit →
      walkFold limit (records.map Except.ok) idx st = Except.ok (runAll records idx st) := by
  induction records with
  | nil => intro idx st limit _; rfl
  | cons kv rest ih =>
    intro idx st limit h
    simp only [List.length_cons] at h
    by_cases hb : idx + 1 ≥ limit
    · have hrest : rest = [] := by
        cases rest with
        | nil => rfl
        | cons a l =>
          exfalso
          simp only [List.length_cons] at h
          omega
      subst hrest
      simp only [List.map, walkFold, runAll, stepState, hb]
      split <;> rfl
    · simp only [List.map, walkFold, if_neg hb]
      exact ih (idx + 1) _ limit (by omega)

theorem runAll_hasher (records : List (RawBytes × RawBytes)) :
    ∀ (idx : Nat) (st : LoopState),
      (runAll records idx st).hasher =
        records.foldl (fun h kv => (h.write kv.1).write kv.2) st.hasher := by
  induction records with
  | nil => intro idx st; rfl
  | cons kv rest ih => intro idx st; simp only [runAll, List.foldl]; exact ih (idx + 1) _

theorem runAll_total (records : List (RawBytes × RawBytes)) :
    ∀ (idx : Nat) (st : LoopState),
      (runAll records idx st).total = if records.isEmpty then st.total else idx + records.length := by
  induction records with
  | nil => intro idx st; rfl
  | cons kv rest ih =>
    intro idx st
    simp only [runAll, ih (idx + 1) (stepState idx st kv)]
    cases rest with
    | nil => simp [stepState]
    | cons a l =>
      simp only [List.isEmpty_cons, List.length_cons, Bool.false_eq_true, if_false]
      omega

theorem runAll_startKey (records : List (RawBytes × RawBytes)) :
    ∀ (idx : Nat) (st : LoopState),
      (runAll records idx st).enumerateStartKey =
        match st.enumerateStartKey with
        | some s => some s
        | none => records.head?.map Prod.fst := by
  induction records with
  | nil =>
    intro idx st
    cases h : st.enumerateStartKey <;> simp [runAll, h]
  | cons kv rest ih =>
    intro idx st
    simp only [runAll, ih (idx + 1) (stepState idx st kv)]
    cases h : st.enumerateStartKey <;> simp [stepState, h]

theorem runAll_endKey (records : List (RawBytes × RawBytes)) :
    ∀ (idx : Nat) (st : LoopState),
      (runAll records idx st).enumerateEndKey =
        match records.getLast? with
        | some kv => some kv.1
        | none => st.enumerateEndKey := by
  induction records with
  | nil => intro idx st; rfl
  | cons kv rest ih =>
    intro idx st
    simp only [runAll, ih (idx + 1) (stepState idx st kv)]
    cases h : rest.getLast? with
    | some kv2 => simp [List.getLast?_cons, h]
    | none =>
      have : rest = [] := by
        cases rest with
        | nil => rfl
        | cons a l => simp [List.getLast?_cons] at h
      subst this
      simp [stepState, List.getLast?_singleton]

theorem walkFold_break_at_limit (records : List (RawBytes × RawBytes)) :
    ∀ (idx : Nat) (st : LoopState) (limit : Nat), idx < limit → limit ≤ idx + records.length →
      walkFold limit (records.map Except.ok) idx st =
        Except.ok (runAll (records.take (limit - idx)) idx st) := by
  induction records with
  | nil => intro idx st limit h1 h2; simp at h2; omega
  | cons kv rest ih =>
    intro idx st limit h1 h2
    by_cases hb : idx + 1 ≥ limit
    · have hlim : limit = idx + 1 := by omega
      subst hlim
      have htake : idx + 1 - idx = 1 := by omega
      rw [htake]
      simp only [List.map, walkFold, hb]
      split
      · rfl
      · exact absurd trivial ‹¬True›
    · simp only [List.map, walkFold, if_neg hb]
      rw [ih (idx + 1) _ limit (by omega)
        (by simp only [List.length_cons] at h2; omega)]
      have htake : limit - idx = (limit - (idx + 1)) + 1 := by omega
      rw [htake, List.take_succ_cons]
      rfl

theorem getChecksumLoop_trueDec (entries : List Entry) (limitOpt : Option Nat) :
    getChecksumLoop (fun _ => true) entries limitOpt =
      (walkOutcome entries limitOpt).map (fun st => (st.hasher.finish, ())) := by
  unfold getChecksumLoop
  cases walkOutcome entries limitOpt with
  | error err => rfl
  | ok st =>
    obtain ⟨hh, tt, sk, ek⟩ := st
    cases sk <;> cases ek <;> rfl

theorem take_getLast_eq_get (records : List (RawBytes × RawBytes)) :
    ∀ (L : Nat), 1 ≤ L → L ≤ records.length →
      (records.take L).getLast? = records[L - 1]? := by
  induction records with
  | nil => intro L h1 h2; simp at h2; omega
  | cons kv rest ih =>
    intro L h1 h2
    cases L with
    | zero => omega
    | succ n =>
      cases n with
      | zero =>
        cases rest with
        | nil => rfl
        | cons a l => simp [List.take]
      | succ m =>
        simp only [List.take, Nat.succ_sub_one]
        have hlen : m + 1 ≤ rest.length := by simp at h2; omega
        have := ih (m + 1) (by omega) hlen
        rw [List.getLast?_cons, this]
        have : rest[m]? = some (rest.get ⟨m, by omega⟩) := by
          simp [List.getElem?_eq_getElem (by omega : m < rest.length)]
        simp only [Nat.succ_sub_one] at this ⊢
        rw [this]
        simp [List.getElem?_cons_succ]

/-! ## Claims -/

/-- C1: the checksum fold is deterministic — the hasher starts from the fixed
seeds `(1, 2, 3, 4)`, so two independent runs of the checksum computation over
identical record sequences, range and limit produce identical checksums and
identical walk states (record count, first/last keys). -/
theorem claim1_checksum_deterministic (v : ChecksumViewer) (dec : RawBytes → Bool)
    (store1 store2 : List (RawBytes × RawBytes)) (h : store1 = store2) :
    v.getChecksum dec store1 = v.getChecksum dec store2 ∧
    walkOutcome (rangeEntries store1 (resolveRange v.startKey v.endKey)) v.limit =
      walkOutcome (rangeEntries store2 (resolveRange v.startKey v.endKey)) v.limit ∧
    initialHasher = buildHasherWithSeeds 1 2 3 4 := by
  subst h
  exact ⟨rfl, rfl, rfl⟩

/-- Witness for C1: two runs over the same one-record store agree. -/
theorem claim1_checksum_deterministic_witness :
    (ChecksumViewer.mk none none none).getChecksum (fun _ => true) [([1], [2])] =
      (ChecksumViewer.mk none none none).getChecksum (fun _ => true) [([1], [2])] ∧
    walkOutcome (rangeEntries [([1], [2])] (resolveRange none none)) none =
      walkOutcome (rangeEntries [([1], [2])] (resolveRange none none)) none ∧
    initialHasher = buildHasherWithSeeds 1 2 3 4 :=
  claim1_checksum_deterministic (ChecksumViewer.mk none none none) (fun _ => true)
    [([1], [2])] [([1], [2])] rfl

/-- C2: for every record visited, the accumulator is fed the record's raw key
bytes and then the record's raw value bytes, in visitation order; the final
checksum is the finalize value of exactly this key-then-value byte fold
(`keyThenValueFold`). -/
theorem claim2_key_then_value_fold (records : List (RawBytes × RawBytes))
    (h : records.length ≤ USIZE_MAX) :
    getChecksumLoop (fun _ => true) (records.map Except.ok) none =
      Except.ok ((keyThenValueFold records).finish, ()) := by
  rw [getChecksumLoop_trueDec]
  unfold walkOutcome
  rw [walkFold_all_ok records 0 initLoopState _ (by simpa using h)]
  simp only [Except.map, runAll_hasher, keyThenValueFold, initLoopState]

/-- Witness for C2 at a concrete two-record sequence. -/
theorem claim2_key_then_value_fold_witness :
    getChecksumLoop (fun _ => true) ([([1], [2]), ([3], [4])].map Except.ok) none =
      Except.ok ((keyThenValueFold [([1], [2]), ([3], [4])]).finish, ()) :=
  claim2_key_then_value_fold [([1], [2]), ([3], [4])] (by decide)

/-- C5: the range resolver maps the optional start/end pair to exactly the
four iteration ranges — fully bounded, start-only, end-only, unbounded — by a
pure case analysis, and the bounded range includes both of its endpoints. -/
theorem claim5_range_resolver :
    (∀ s e : RawBytes, resolveRange (some s) (some e) = KeyRange.bounded s e) ∧
    (∀ s : RawBytes, resolveRange (some s) none = KeyRange.fromStart s) ∧
    (∀ e : RawBytes, resolveRange none (some e) = KeyRange.toEnd e) ∧
    resolveRange none none = KeyRange.unbounded ∧
    (∀ s e : RawBytes, s ≤ e →
      (KeyRange.bounded s e).containsKey s = true ∧
      (KeyRange.bounded s e).containsKey e = true) := by
  refine ⟨fun s e => rfl, fun s => rfl, fun e => rfl, rfl, fun s e h => ⟨?_, ?_⟩⟩
  · simp [KeyRange.containsKey, h]
  · simp [KeyRange.containsKey, h]

/-- Witness for C5 at concrete boundary keys. -/
theorem claim5_range_resolver_witness :
    resolveRange (some [1]) (some [2]) = KeyRange.bounded [1] [2] ∧
    (KeyRange.bounded [1] [2]).containsKey [1] = true ∧
    (KeyRange.bounded [1] [2]).containsKey [2] = true :=
  ⟨claim5_range_resolver.1 [1] [2],
    (claim5_range_resolver.2.2.2.2 [1] [2] (by decide)).1,
    (claim5_range_resolver.2.2.2.2 [1] [2] (by decide)).2⟩

theorem walkFold_error (pre : List (RawBytes × RawBytes)) (err : DbError) (rest : List Entry) :
    ∀ (idx : Nat) (st : LoopState) (limit : Nat), idx + pre.length < limit →
      walkFold limit (pre.map Except.ok ++ Except.error err :: rest) idx st =
        Except.error err := by
  induction pre with
  | nil => intro idx st limit _; rfl
  | cons kv tail ih =>
    intro idx st limit h
    simp only [List.length_cons] at h
    have hb : ¬ idx + 1 ≥ limit := by omega
    simp only [List.map, List.cons_append, walkFold, if_neg hb]
    exact ih (idx + 1) _ limit (by omega)

/-- C7: an I/O or decode failure surfaced by the cursor on any entry that the
walk reaches aborts the walk: `get_checksum` returns exactly that error, and
no partial checksum is returned alongside it. -/
theorem claim7_error_aborts (dec : RawBytes → Bool) (pre : List (RawBytes × RawBytes))
    (err : DbError) (rest : List Entry) (limitOpt : Option Nat)
    (h : pre.length < limitOpt.getD USIZE_MAX) :
    getChecksumLoop dec (pre.map Except.ok ++ Except.error err :: rest) limitOpt =
      Except.error err := by
  unfold getChecksumLoop walkOutcome
  rw [walkFold_error pre err rest 0 initLoopState _ (by simpa using h)]

/-- Witness for C7: a cursor failure after one good record aborts the walk. -/
theorem claim7_error_aborts_witness :
    getChecksumLoop (fun _ => true)
      ([([1], [2])].map Except.ok ++ Except.error (DbError.cursor 7) :: []) none =
      Except.error (DbError.cursor 7) :=
  claim7_error_aborts (fun _ => true) [([1], [2])] (DbError.cursor 7) [] none (by decide)

/-- C9: the fold is order-dependent, not a commutative aggregate — feeding the
same two (key, value) records in the two opposite orders produces two
different checksums, both for the raw fold and for the full walk. -/
theorem claim9_order_sensitive :
    (keyThenValueFold [([0], [1]), ([2], [3])]).finish ≠
      (keyThenValueFold [([2], [3]), ([0], [1])]).finish ∧
    (getChecksumLoop (fun _ => true) [Except.ok ([0], [1]), Except.ok ([2], [3])] none).toOption ≠
      (getChecksumLoop (fun _ => true) [Except.ok ([2], [3]), Except.ok ([0], [1])] none).toOption := by
  exact ⟨by decide, by decide⟩

/-- C10: with `limit = Some(0)` and at least one record in range, the first
record is still read and hashed before the limit check fires (`total >= limit`
runs only after the record has been fed), so the count is 1 and the checksum
covers that record's bytes rather than the seeded-empty value. -/
theorem claim10_limit_zero (dec : RawBytes → Bool) (k v : RawBytes) (rest : List Entry)
    (hdec : dec k = true) :
    walkOutcome (Except.ok (k, v) :: rest) (some 0) =
      Except.ok ⟨(initialHasher.write k).write v, 1, some k, some k⟩ ∧
    getChecksumLoop dec (Except.ok (k, v) :: rest) (some 0) =
      Except.ok (((initialHasher.write k).write v).finish, ()) := by
  have hw : walkOutcome (Except.ok (k, v) :: rest) (some 0) =
      Except.ok ⟨(initialHasher.write k).write v, 1, some k, some k⟩ := rfl
  refine ⟨hw, ?_⟩
  unfold getChecksumLoop
  rw [hw]
  simp [hdec]

/-- Witness for C10: a concrete one-record walk under `limit = Some(0)`. -/
theorem claim10_limit_zero_witness :
    walkOutcome (Except.ok ([7], [8]) :: []) (some 0) =
      Except.ok ⟨(initialHasher.write [7]).write [8], 1, some [7], some [7]⟩ ∧
    getChecksumLoop (fun _ => true) (Except.ok ([7], [8]) :: []) (some 0) =
      Except.ok (((initialHasher.write [7]).write [8]).finish, ()) :=
  claim10_limit_zero (fun _ => true) [7] [8] [] rfl

/-- C3 counterexample: the claim quantifies over every configured limit `L`,
but for `L = 0` with one record in range the walk still processes one record
(the limit check runs only after a record is fed), so the record count is 1,
not `L = 0`. -/
theorem claim3_counterexample :
    (walkOutcome ([(([5] : RawBytes), ([6] : RawBytes))].map Except.ok) (some 0)).toOption.map
        LoopState.total = some 1 ∧
    (some 1 : Option Nat) ≠ some 0 := by
  exact ⟨by decide, by decide⟩

/-- C3 (amended to `L ≥ 1`): with limit `L ≥ 1` over a range holding more
than `L` records, the walk stops after exactly `L` records: the count is `L`,
the tracked end key is the key of the `L`-th record in iteration order, and
only the first `L` records are hashed. -/
theorem claim3_limit_truncation (records : List (RawBytes × RawBytes)) (L : Nat)
    (h1 : 1 ≤ L) (h2 : L < records.length) :
    ∃ st, walkOutcome (records.map Except.ok) (some L) = Except.ok st ∧
      st.total = L ∧
      st.enumerateEndKey = records[L - 1]?.map Prod.fst ∧
      st.hasher = keyThenValueFold (records.take L) := by
  refine ⟨runAll (records.take L) 0 initLoopState, ?_, ?_, ?_, ?_⟩
  · unfold walkOutcome
    have := walkFold_break_at_limit records 0 initLoopState L (by omega) (by omega)
    simpa using this
  · rw [runAll_total]
    have hlen : (records.take L).length = L := by
      rw [List.length_take]
      omega
    have hne : (records.take L).isEmpty = false := by
      cases htk : records.take L with
      | nil => rw [htk] at hlen; simp at hlen; omega
      | cons a l => rfl
    rw [hne]
    simpa using hlen
  · rw [runAll_endKey, take_getLast_eq_get records L h1 (le_of_lt h2)]
    have hlt : L - 1 < records.length := by omega
    rw [List.getElem?_eq_getElem hlt]
    rfl
  · rw [runAll_hasher]
    rfl

/-- Witness for C3 at `L = 2` over a three-record range. -/
theorem claim3_limit_truncation_witness :
    ∃ st, walkOutcome (([([1], [2]), ([3], [4]), ([5], [6])] :
        List (RawBytes × RawBytes)).map Except.ok) (some 2) = Except.ok st ∧
      st.total = 2 ∧
      st.enumerateEndKey = (([([1], [2]), ([3], [4]), ([5], [6])] :
        List (RawBytes × RawBytes))[2 - 1]?).map Prod.fst ∧
      st.hasher = keyThenValueFold (([([1], [2]), ([3], [4]), ([5], [6])] :
        List (RawBytes × RawBytes)).take 2) :=
  claim3_limit_truncation [([1], [2]), ([3], [4]), ([5], [6])] 2 (by decide) (by decide)

/-- C4 counterexample: `get_checksum` returns only `(checksum, elapsed)`, so
the returned value cannot contain the record count or the end key — two walks
whose returned values are equal differ in record count (1 versus 2) and in
last visited key. -/
theorem claim4_counterexample :
    getChecksumLoop (fun _ => true) [Except.ok ([10], [20])] none =
      getChecksumLoop (fun _ => true)
        [Except.ok ([10], [20]), Except.ok ([0], [2811604386833625022])] none ∧
    (walkOutcome [Except.ok ([10], [20])] none).toOption.map LoopState.total = some 1 ∧
    (walkOutcome [Except.ok ([10], [20]), Except.ok ([0], [2811604386833625022])]
        none).toOption.map LoopState.total = some 2 ∧
    (walkOutcome [Except.ok ([10], [20])] none).toOption.map LoopState.enumerateEndKey ≠
      (walkOutcome [Except.ok ([10], [20]), Except.ok ([0], [2811604386833625022])]
        none).toOption.map LoopState.enumerateEndKey := by
  exact ⟨rfl, by decide, by decide, by decide⟩

/-- C4 (amended): on success `get_checksum` returns only the pair
`(checksum, elapsed)` with the checksum the finalize value of the walk's
fold; the record count and the first/last visited keys are computed during
the walk with the claimed semantics (first key = key of the first record
visited, end key = key of the last, both absent when zero records were
visited) but are only logged, not part of the returned value. -/
theorem claim4_walk_result (records : List (RawBytes × RawBytes))
    (h : records.length ≤ USIZE_MAX) :
    ∃ st, walkOutcome (records.map Except.ok) none = Except.ok st ∧
      getChecksumLoop (fun _ => true) (records.map Except.ok) none =
        Except.ok (st.hasher.finish, ()) ∧
      st.total = records.length ∧
      st.enumerateStartKey = records.head?.map Prod.fst ∧
      st.enumerateEndKey = records.getLast?.map Prod.fst := by
  have hw : walkOutcome (records.map Except.ok) none =
      Except.ok (runAll records 0 initLoopState) := by
    unfold walkOutcome
    exact walkFold_all_ok records 0 initLoopState _ (by simpa using h)
  refine ⟨runAll records 0 initLoopState, hw, ?_, ?_, ?_, ?_⟩
  · rw [getChecksumLoop_trueDec, hw]
    rfl
  · rw [runAll_total]
    cases records <;> simp [initLoopState]
  · rw [runAll_startKey]
    rfl
  · rw [runAll_endKey]
    cases records.getLast? <;> rfl

/-- Witness for C4 at a concrete two-record walk. -/
theorem claim4_walk_result_witness :
    ∃ st, walkOutcome (([([1], [2]), ([3], [4])] :
        List (RawBytes × RawBytes)).map Except.ok) none = Except.ok st ∧
      getChecksumLoop (fun _ => true) (([([1], [2]), ([3], [4])] :
          List (RawBytes × RawBytes)).map Except.ok) none =
        Except.ok (st.hasher.finish, ()) ∧
      st.total = ([([1], [2]), ([3], [4])] : List (RawBytes × RawBytes)).length ∧
      st.enumerateStartKey = (([([1], [2]), ([3], [4])] :
        List (RawBytes × RawBytes)).head?).map Prod.fst ∧
      st.enumerateEndKey = (([([1], [2]), ([3], [4])] :
        List (RawBytes × RawBytes)).getLast?).map Prod.fst :=
  claim4_walk_result [([1], [2]), ([3], [4])] (by decide)

/-- C6: a range yielding zero records (including a bounded range whose start
is greater than its end) is not an error: `get_checksum` returns successfully
with the seeded-but-never-fed accumulator's finalize value, and the walk
state records count 0 and no first/last key (`initLoopState` is
`⟨initialHasher, 0, none, none⟩`). -/
theorem claim6_empty_range :
    (∀ (v : ChecksumViewer) (dec : RawBytes → Bool) (store : List (RawBytes × RawBytes)),
      rangeEntries store (resolveRange v.startKey v.endKey) = [] →
        v.getChecksum dec store = Except.ok (emptyChecksum, ()) ∧
        walkOutcome (rangeEntries store (resolveRange v.startKey v.endKey)) v.limit =
          Except.ok initLoopState) ∧
    (∀ (s e : RawBytes) (l : Option Nat) (dec : RawBytes → Bool)
        (store : List (RawBytes × RawBytes)), e < s →
      (ChecksumViewer.mk (some s) (some e) l).getChecksum dec store =
        Except.ok (emptyChecksum, ())) := by
  constructor
  · intro v dec store h
    constructor
    · unfold ChecksumViewer.getChecksum
      rw [h]
      rfl
    · rw [h]
      rfl
  · intro s e l dec store hlt
    have hfilter : store.filter (fun kv => (KeyRange.bounded s e).containsKey kv.1) = [] := by
      apply List.filter_eq_nil_iff.mpr
      intro kv _
      simp only [KeyRange.containsKey, Bool.and_eq_true, decide_eq_true_eq, not_and]
      intro h1 h2
      exact absurd (le_trans h1 h2) (not_le.mpr hlt)
    have hempty : rangeEntries store (resolveRange (some s) (some e)) = [] := by
      unfold rangeEntries resolveRange
      rw [hfilter]
      rfl
    show getChecksumLoop dec (rangeEntries store (resolveRange (some s) (some e))) l =
      Except.ok (emptyChecksum, ())
    rw [hempty]
    rfl

/-- Witness for C6: an empty store under the unbounded range, and an inverted
bounded range over a nonempty store. -/
theorem claim6_empty_range_witness :
    ((ChecksumViewer.mk none none none).getChecksum (fun _ => true) [] =
        Except.ok (emptyChecksum, ()) ∧
      walkOutcome (rangeEntries [] (resolveRange none none)) none =
        Except.ok initLoopState) ∧
    (ChecksumViewer.mk (some [2]) (some [1]) none).getChecksum (fun _ => true) [([1], [5])] =
      Except.ok (emptyChecksum, ()) :=
  ⟨claim6_empty_range.1 (ChecksumViewer.mk none none none) (fun _ => true) [] rfl,
    claim6_empty_range.2 [2] [1] none (fun _ => true) [([1], [5])] (by decide)⟩

/-- C8 counterexample: when the reverse decoder rejects the tracked first/last
key, `get_checksum` returns an error — not the successfully computed
checksum, contrary to the claim that such a failure is non-fatal. -/
theorem claim8_counterexample :
    getChecksumLoop (fun _ => false) [Except.ok ([0], [1])] none =
      Except.error DbError.keyDecode ∧
    (Except.error DbError.keyDecode : Except DbError (Nat × Unit)) ≠
      Except.ok (((initialHasher.write [0]).write [1]).finish, ()) :=
  ⟨rfl, fun h => Except.noConfusion h⟩

/-- C8 (amended): a reverse-decode failure on the report-only first/last key
fields after the fold has completed is fatal — `get_checksum` propagates
`s.key()?` / `e.key()?` and returns an error, discarding the computed
checksum (only JSON serialization of a successfully decoded key is
non-fatal). -/
theorem claim8_decode_failure_fatal (dec : RawBytes → Bool) (entries : List Entry)
    (limitOpt : Option Nat) (st : LoopState) (s e : RawBytes)
    (hw : walkOutcome entries limitOpt = Except.ok st)
    (hs : st.enumerateStartKey = some s) (he : st.enumerateEndKey = some e)
    (hdec : dec s = false ∨ dec e = false) :
    getChecksumLoop dec entries limitOpt = Except.error DbError.keyDecode := by
  rcases hdec with h | h
  · simp [getChecksumLoop, hw, hs, he, h]
  · simp [getChecksumLoop, hw, hs, he, h]

/-- Witness for C8: a one-record walk whose key the reverse decoder rejects. -/
theorem claim8_decode_failure_fatal_witness :
    getChecksumLoop (fun _ => false) [Except.ok ([3], [4])] none =
      Except.error DbError.keyDecode :=
  claim8_decode_failure_fatal (fun _ => false) [Except.ok ([3], [4])] none
    ⟨(initialHasher.write [3]).write [4], 1, some [3], some [3]⟩ [3] [3]
    rfl rfl rfl (Or.inl rfl)
